import Mathlib

/-!
# multilayer_cache: the layered orchestrator over an ordered list of caches

Shallow embedding of `src/cache.go` and `src/multilayer_cache.go`.

* A backend (`Cache[T]`) is an external stateful collaborator.  Its methods
  are modelled as transformers of one shared world state `σ`, so that layers
  may be independent stores, may share storage, may fail, or may answer
  differently on every call.
* Go's `error` is `Option String`: `none` is `nil`, `some m` is a non-nil
  error whose `Error()` text is `m`.
* Every method call that the orchestrator issues to a layer is recorded, in
  program order, together with the layer's answer.  The record (the trace) is
  ghost output: it does not influence the computation.
-/

set_option autoImplicit false

namespace cache

/-! ## Data model -/

/-- Go `time.Duration` (a count of nanoseconds).  The orchestrator only passes
it on, no arithmetic is performed on it. -/
abbrev Duration := Int

/-- The interface `Cache[T]` of `cache.go`, together with the optional
`Closer` capability that `Close` probes dynamically.  `σ` is the world the
backends live in, `C` is `context.Context`. -/
structure Cache (σ C T : Type) where
  /-- Method `Get(ctx, key) (T, bool, error)`. -/
  Get : C → String → σ → (T × Bool × Option String) × σ
  /-- Method `Set(ctx, key, value, expiration) error`. -/
  Set : C → String → T → Duration → σ → Option String × σ
  /-- Method `Delete(ctx, key...) error`. -/
  Delete : C → List String → σ → Option String × σ
  /-- Method `Name() string`, a stable identifier. -/
  Name : String
  /-- Method `Close() error` when the dynamic type also implements `Closer`. -/
  closer : Option (σ → Option String × σ)

/-- The struct `MultilayerCache[T]`. -/
structure MultilayerCache (σ C T : Type) where
  caches : List (Cache σ C T)
  expiration : Duration
  zero : T

/-- A method call on the layer at position `layer` of `mc.caches`. -/
inductive Call (C T : Type) where
  | get (layer : Nat) (ctx : C) (key : String)
  | set (layer : Nat) (ctx : C) (key : String) (value : T) (expiration : Duration)
  | delete (layer : Nat) (ctx : C) (keys : List String)
  | close (layer : Nat)
  deriving DecidableEq, Repr

/-- What the layer answered to a call. -/
inductive Reply (T : Type) where
  | got (v : T) (ok : Bool) (err : Option String)
  | done (err : Option String)
  deriving DecidableEq, Repr

/-- One entry of the trace: the call and its answer. -/
abbrev Event (C T : Type) := Call C T × Reply T

/-- The calls of a trace, answers erased. -/
def calls {C T : Type} (tr : List (Event C T)) : List (Call C T) :=
  tr.map Prod.fst

/-! ## Operations -/

section Ops

variable {σ C T : Type}

/-- The error built by `errors.Errorf("cache:%v  error: %v", cache.Name(), err)`:
only its message is modelled. -/
def Errorf (name : String) (err : String) : String :=
  "cache:" ++ name ++ "  error: " ++ err

/-- Function `NewMultilayerCache`: field `zero` is left at the zero value of `T`. -/
def NewMultilayerCache [Inhabited T] (expiration : Duration)
    (caches : List (Cache σ C T)) : MultilayerCache σ C T :=
  { expiration := expiration, caches := caches, zero := default }

/-- The loop of `Set` (lines 26-32); `i` is the position of the head of the
remaining layers.  Yields the returned error, the world and the trace. -/
def setLoop (expiration : Duration) (ctx : C) (key : String) (value : T) :
    Nat → List (Cache σ C T) → σ → Option String × σ × List (Event C T)
  | _, [], s => (none, s, [])
  | i, cache :: rest, s =>
    let r := cache.Set ctx key value expiration s
    match r.1 with
    | some err =>
      (some (Errorf cache.Name err), r.2,
        [(Call.set i ctx key value expiration, Reply.done (some err))])
    | none =>
      let q := setLoop expiration ctx key value (i + 1) rest r.2
      (q.1, q.2.1, (Call.set i ctx key value expiration, Reply.done none) :: q.2.2)

/-- Method `MultilayerCache.Set`. -/
def MultilayerCache.Set (mc : MultilayerCache σ C T) (ctx : C) (key : String) (value : T)
    (s : σ) : Option String × σ × List (Event C T) :=
  setLoop mc.expiration ctx key value 0 mc.caches s

/-- How the scanning loop of `Get` (lines 39-50) is left. -/
inductive Scan (T : Type) where
  /-- The `return v, ok, errors.Errorf(...)` of line 42. -/
  | returned (v : T) (ok : Bool) (err : String)
  /-- The loop ended (by `break` or by exhaustion) with these locals. -/
  | finished (index : Nat) (result : T) (exist : Bool)
  deriving DecidableEq, Repr

/-- The scanning loop of `Get` (lines 39-50), carrying the locals `index`,
`result` and `exist`; `i` is the loop variable. -/
def scanLoop (ctx : C) (key : String) :
    Nat → List (Cache σ C T) → Nat → T → Bool → σ → Scan T × σ × List (Event C T)
  | _, [], index, result, exist, s => (Scan.finished index result exist, s, [])
  | i, cache :: rest, index, result, exist, s =>
    let r := cache.Get ctx key s
    let ev : Event C T := (Call.get i ctx key, Reply.got r.1.1 r.1.2.1 r.1.2.2)
    match r.1.2.2 with
    | some err => (Scan.returned r.1.1 r.1.2.1 (Errorf cache.Name err), r.2, [ev])
    | none =>
      if r.1.2.1 then (Scan.finished i r.1.1 true, r.2, [ev])
      else
        let q := scanLoop ctx key (i + 1) rest index result exist r.2
        (q.1, q.2.1, ev :: q.2.2)

/-- The backfill loop of `Get` (lines 53-55): every error is discarded. -/
def backfillLoop (expiration : Duration) (ctx : C) (key : String) (result : T) :
    Nat → List (Cache σ C T) → σ → σ × List (Event C T)
  | _, [], s => (s, [])
  | i, c :: rest, s =>
    let r := c.Set ctx key result expiration s
    let q := backfillLoop expiration ctx key result (i + 1) rest r.2
    (q.1, (Call.set i ctx key result expiration, Reply.done r.1) :: q.2)

/-- Method `MultilayerCache.Get`. -/
def MultilayerCache.Get [Inhabited T] (mc : MultilayerCache σ C T) (ctx : C) (key : String)
    (s : σ) : (T × Bool × Option String) × σ × List (Event C T) :=
  let q := scanLoop ctx key 0 mc.caches 0 default false s
  match q.1 with
  | Scan.returned v ok err => ((v, ok, some err), q.2.1, q.2.2)
  | Scan.finished index result exist =>
    if index ≠ 0 ∧ exist = true then
      let b := backfillLoop mc.expiration ctx key result 0 (mc.caches.take index) q.2.1
      ((result, true, none), b.1, q.2.2 ++ b.2)
    else ((mc.zero, false, none), q.2.1, q.2.2)

/-- The loop of `Close` (lines 62-66): layers without the `Closer` capability
are skipped, errors are discarded. -/
def closeLoop : Nat → List (Cache σ C T) → σ → σ × List (Event C T)
  | _, [], s => (s, [])
  | i, cache :: rest, s =>
    match cache.closer with
    | some c =>
      let r := c s
      let q := closeLoop (i + 1) rest r.2
      (q.1, (Call.close i, Reply.done r.1) :: q.2)
    | none => closeLoop (i + 1) rest s

/-- Method `MultilayerCache.Close`: nothing is returned to the caller. -/
def MultilayerCache.Close (mc : MultilayerCache σ C T) (s : σ) : σ × List (Event C T) :=
  closeLoop 0 mc.caches s

end Ops

/-! ## Layer behaviour during one call -/

section Behaviour

variable {σ C T : Type}

/-- The answers the layers give to `Get(ctx, key)` when they are asked one
after the other, in list order, starting in world `s`. -/
def getReplies (ctx : C) (key : String) :
    List (Cache σ C T) → σ → List (T × Bool × Option String)
  | [], _ => []
  | c :: rest, s => (c.Get ctx key s).1 :: getReplies ctx key rest (c.Get ctx key s).2

/-- The answers the layers give to `Set(ctx, key, value, expiration)` when
they are written one after the other, in list order, starting in world `s`. -/
def setReplies (expiration : Duration) (ctx : C) (key : String) (value : T) :
    List (Cache σ C T) → σ → List (Option String)
  | [], _ => []
  | c :: rest, s =>
    (c.Set ctx key value expiration s).1 ::
      setReplies expiration ctx key value rest (c.Set ctx key value expiration s).2

/-- The world after the layers have all been asked `Get(ctx, key)` in order. -/
def afterGets (ctx : C) (key : String) : List (Cache σ C T) → σ → σ
  | [], s => s
  | c :: rest, s => afterGets ctx key rest (c.Get ctx key s).2

/-- Layer `c` holds `v` under `key` in world `s`: asked now, it reports a hit
with that value and no error. -/
def Holds (c : Cache σ C T) (ctx : C) (key : String) (v : T) (s : σ) : Prop :=
  (c.Get ctx key s).1 = (v, true, none)

/-- The layers `ls` are store-like for writes of `v` under `key`: a successful
set makes the value retrievable from the written layer, and a set issued to
one position does not disturb what a layer at another position holds. -/
def StoreLike (ls : List (Cache σ C T)) (expiration : Duration) (ctx : C) (key : String)
    (v : T) : Prop :=
  (∀ c ∈ ls, ∀ s, (c.Set ctx key v expiration s).1 = none →
      Holds c ctx key v (c.Set ctx key v expiration s).2) ∧
  (∀ (j k : Nat) (c d : Cache σ C T), j ≠ k → ls[j]? = some c → ls[k]? = some d →
      ∀ s, Holds c ctx key v s → Holds c ctx key v (d.Set ctx key v expiration s).2)

/-- A call sequence: one `Get` per position `i0, i0+1, ..., i0+n-1`. -/
def getCallsFrom (ctx : C) (key : String) (i0 n : Nat) : List (Call C T) :=
  (List.range' i0 n).map fun j => Call.get j ctx key

/-- A call sequence: one `Set` per position `i0, i0+1, ..., i0+n-1`. -/
def setCallsFrom (expiration : Duration) (ctx : C) (key : String) (value : T) (i0 n : Nat) :
    List (Call C T) :=
  (List.range' i0 n).map fun j => Call.set j ctx key value expiration

/-- The positions of the layers that implement `Closer`, in index order. -/
def closerPositions (ls : List (Cache σ C T)) : List Nat :=
  (List.range ls.length).filter fun j =>
    match ls[j]? with
    | some c => c.closer.isSome
    | none => false

/-- The answers the closers give to `Close()` when they are invoked one after
the other, in list order, starting in world `s`. -/
def closeReplies : List (σ → Option String × σ) → σ → List (Option String)
  | [], _ => []
  | f :: rest, s => (f s).1 :: closeReplies rest (f s).2

/-- The world after the closers have all been invoked in order. -/
def afterCloses : List (σ → Option String × σ) → σ → σ
  | [], s => s
  | f :: rest, s => afterCloses rest (f s).2

end Behaviour

/-! ## Concrete backends used to instantiate the results -/

/-- A world of in-memory tables: entries are keyed by table number and key,
the most recent entry wins. -/
abbrev Tables := List ((Nat × String) × Nat)

/-- An in-memory table, number `id` of the world; expiration is advisory. -/
def memLayer (id : Nat) (name : String) : Cache Tables Unit Nat :=
  { Get := fun _ key s =>
      match s.lookup (id, key) with
      | some v => ((v, true, none), s)
      | none => ((0, false, none), s)
    Set := fun _ key v _ s => (none, ((id, key), v) :: s)
    Delete := fun _ keys s => (none, s.filter fun e => !(e.1.1 == id && keys.contains e.1.2))
    Name := name
    closer := none }

/-- A backend that is down for writes and never holds anything. -/
def readOnlyLayer (name : String) : Cache Tables Unit Nat :=
  { Get := fun _ _ s => ((0, false, none), s)
    Set := fun _ _ _ _ s => (some "write refused", s)
    Delete := fun _ _ s => (some "write refused", s)
    Name := name
    closer := none }

/-- A backend whose every read fails. -/
def downLayer (name : String) : Cache Tables Unit Nat :=
  { Get := fun _ _ s => ((0, false, some "timeout"), s)
    Set := fun _ _ _ _ s => (some "timeout", s)
    Delete := fun _ _ s => (some "timeout", s)
    Name := name
    closer := some fun s => (some "timeout", s) }

/-- A backend that answers a read with a value, the found flag and an error
at once (a stale entry served while the store is unreachable). -/
def staleLayer (name : String) : Cache Tables Unit Nat :=
  { Get := fun _ _ s => ((7, true, some "stale read"), s)
    Set := fun _ _ _ _ s => (none, s)
    Delete := fun _ _ s => (none, s)
    Name := name
    closer := none }

/-- An in-memory table with a session: `Close()` records in the world that
table `id` was closed and answers `err`. -/
def sessionLayer (id : Nat) (name : String) (err : Option String) : Cache Tables Unit Nat :=
  { Get := (memLayer id name).Get
    Set := (memLayer id name).Set
    Delete := (memLayer id name).Delete
    Name := name
    closer := some fun s => (err, ((id, "closed"), 1) :: s) }

/-- One in-memory layer, five minutes of expiration. -/
def memoryOnly : MultilayerCache Tables Unit Nat :=
  NewMultilayerCache 300000000000 [memLayer 0 "memory"]

/-- The layers `[Memory, Remote]`, five minutes of expiration. -/
def memoryRemote : MultilayerCache Tables Unit Nat :=
  NewMultilayerCache 300000000000 [memLayer 0 "memory", memLayer 1 "remote"]

/-- A write-refusing first layer in front of two in-memory layers. -/
def brokenFront : MultilayerCache Tables Unit Nat :=
  NewMultilayerCache 300000000000
    [readOnlyLayer "edge", memLayer 1 "memory", memLayer 2 "remote"]

/-- An in-memory layer in front of a backend that is down. -/
def brokenBack : MultilayerCache Tables Unit Nat :=
  NewMultilayerCache 300000000000 [memLayer 0 "memory", downLayer "remote"]

/-- An in-memory layer in front of a backend that serves stale entries. -/
def staleBack : MultilayerCache Tables Unit Nat :=
  NewMultilayerCache 300000000000 [memLayer 0 "memory", staleLayer "remote"]

/-- Two closeable backends, the first of which fails to close, around an
in-memory layer that is not closeable. -/
def closeMix : MultilayerCache Tables Unit Nat :=
  NewMultilayerCache 300000000000
    [sessionLayer 0 "first" (some "busy"), memLayer 1 "memory", sessionLayer 2 "last" none]

/-! # Properties -/


/-! ## The scanning loop -/

section ScanHit

variable {σ C T : Type}

theorem getCallsFrom_succ (ctx : C) (key : String) (i0 n : Nat) :
    (getCallsFrom ctx key i0 (n + 1) : List (Call C T)) =
      Call.get i0 ctx key :: getCallsFrom ctx key (i0 + 1) n := by
  simp [getCallsFrom, List.range'_succ]

theorem setCallsFrom_succ (expiration : Duration) (ctx : C) (key : String) (value : T)
    (i0 n : Nat) :
    setCallsFrom expiration ctx key value i0 (n + 1) =
      Call.set i0 ctx key value expiration :: setCallsFrom expiration ctx key value (i0 + 1) n := by
  simp [setCallsFrom, List.range'_succ]

/-- Scanning past `i` clean misses into a clean hit: the loop breaks at the
hit with the hit's value, after exactly `i + 1` reads. -/
theorem scanLoop_hit (ctx : C) (key : String) (v : T) :
    ∀ (ls : List (Cache σ C T)) (i0 i index : Nat) (result : T) (exist : Bool) (s : σ),
      (∀ j, j < i → ∃ u, (getReplies ctx key ls s)[j]? = some (u, false, none)) →
      (getReplies ctx key ls s)[i]? = some (v, true, none) →
      (scanLoop ctx key i0 ls index result exist s).1 = Scan.finished (i0 + i) v true ∧
      (scanLoop ctx key i0 ls index result exist s).2.1 = afterGets ctx key (ls.take (i + 1)) s ∧
      calls (scanLoop ctx key i0 ls index result exist s).2.2 = getCallsFrom ctx key i0 (i + 1) := by
  intro ls
  induction ls with
  | nil => intro i0 i index result exist s _ hhit; simp [getReplies] at hhit
  | cons c rest ih =>
    intro i0 i index result exist s hmiss hhit
    cases i with
    | zero =>
      have h0 : (c.Get ctx key s).1 = (v, true, none) := by simpa [getReplies] using hhit
      have h1 : (c.Get ctx key s).1.2.2 = none := by rw [h0]
      have h2 : (c.Get ctx key s).1.2.1 = true := by rw [h0]
      have h3 : (c.Get ctx key s).1.1 = v := by rw [h0]
      simp [scanLoop, h1, h2, h3, afterGets, calls, getCallsFrom]
    | succ i =>
      obtain ⟨u, hu⟩ := hmiss 0 (Nat.succ_pos i)
      have h0 : (c.Get ctx key s).1 = (u, false, none) := by simpa [getReplies] using hu
      have h1 : (c.Get ctx key s).1.2.2 = none := by rw [h0]
      have h2 : (c.Get ctx key s).1.2.1 = false := by rw [h0]
      have hm : ∀ j, j < i →
          ∃ u, (getReplies ctx key rest (c.Get ctx key s).2)[j]? = some (u, false, none) := by
        intro j hj
        obtain ⟨w, hw⟩ := hmiss (j + 1) (Nat.succ_lt_succ hj)
        exact ⟨w, by simpa [getReplies] using hw⟩
      have hh : (getReplies ctx key rest (c.Get ctx key s).2)[i]? = some (v, true, none) := by
        simpa [getReplies] using hhit
      obtain ⟨e1, e2, e3⟩ := ih (i0 + 1) i index result exist (c.Get ctx key s).2 hm hh
      refine ⟨?_, ?_, ?_⟩
      · simp [scanLoop, h1, h2, e1]; omega
      · simp [scanLoop, h1, h2, e2, afterGets]
      · rw [getCallsFrom_succ, ← e3]; simp [scanLoop, h1, h2, calls]

end ScanHit


section ScanOutcomes

variable {σ C T : Type}

/-- Scanning past `i` clean misses into a failing read: the loop returns at
once with the failing layer's value and flag and the attributed error. -/
theorem scanLoop_error (ctx : C) (key : String) (u : T) (ok : Bool) (e : String) :
    ∀ (ls : List (Cache σ C T)) (i0 i index : Nat) (result : T) (exist : Bool) (s : σ)
      (c : Cache σ C T),
      (∀ j, j < i → ∃ w, (getReplies ctx key ls s)[j]? = some (w, false, none)) →
      (getReplies ctx key ls s)[i]? = some (u, ok, some e) →
      ls[i]? = some c →
      (scanLoop ctx key i0 ls index result exist s).1 = Scan.returned u ok (Errorf c.Name e) ∧
      (scanLoop ctx key i0 ls index result exist s).2.1 = afterGets ctx key (ls.take (i + 1)) s ∧
      calls (scanLoop ctx key i0 ls index result exist s).2.2 = getCallsFrom ctx key i0 (i + 1) := by
  intro ls
  induction ls with
  | nil => intro i0 i index result exist s c _ herr; simp [getReplies] at herr
  | cons d rest ih =>
    intro i0 i index result exist s c hmiss herr hc
    cases i with
    | zero =>
      have h0 : (d.Get ctx key s).1 = (u, ok, some e) := by simpa [getReplies] using herr
      have h1 : (d.Get ctx key s).1.2.2 = some e := by rw [h0]
      have h2 : (d.Get ctx key s).1.2.1 = ok := by rw [h0]
      have h3 : (d.Get ctx key s).1.1 = u := by rw [h0]
      have hd : d = c := by simpa using hc
      subst hd
      simp [scanLoop, h1, h2, h3, afterGets, calls, getCallsFrom]
    | succ i =>
      obtain ⟨w, hw⟩ := hmiss 0 (Nat.succ_pos i)
      have h0 : (d.Get ctx key s).1 = (w, false, none) := by simpa [getReplies] using hw
      have h1 : (d.Get ctx key s).1.2.2 = none := by rw [h0]
      have h2 : (d.Get ctx key s).1.2.1 = false := by rw [h0]
      have hm : ∀ j, j < i →
          ∃ w, (getReplies ctx key rest (d.Get ctx key s).2)[j]? = some (w, false, none) := by
        intro j hj
        obtain ⟨x, hx⟩ := hmiss (j + 1) (Nat.succ_lt_succ hj)
        exact ⟨x, by simpa [getReplies] using hx⟩
      have hh : (getReplies ctx key rest (d.Get ctx key s).2)[i]? = some (u, ok, some e) := by
        simpa [getReplies] using herr
      have hc2 : rest[i]? = some c := by simpa using hc
      obtain ⟨e1, e2, e3⟩ := ih (i0 + 1) i index result exist (d.Get ctx key s).2 c hm hh hc2
      refine ⟨?_, ?_, ?_⟩
      · simp [scanLoop, h1, h2, e1]
      · simp [scanLoop, h1, h2, e2, afterGets]
      · rw [getCallsFrom_succ, ← e3]; simp [scanLoop, h1, h2, calls]

/-- Scanning over layers that all miss cleanly: the loop runs to exhaustion,
the locals keep their initial values and every layer is read once. -/
theorem scanLoop_miss (ctx : C) (key : String) :
    ∀ (ls : List (Cache σ C T)) (i0 index : Nat) (result : T) (exist : Bool) (s : σ),
      (∀ r ∈ getReplies ctx key ls s, r.2 = (false, none)) →
      (scanLoop ctx key i0 ls index result exist s).1 = Scan.finished index result exist ∧
      (scanLoop ctx key i0 ls index result exist s).2.1 = afterGets ctx key ls s ∧
      calls (scanLoop ctx key i0 ls index result exist s).2.2 = getCallsFrom ctx key i0 ls.length := by
  intro ls
  induction ls with
  | nil => intro i0 index result exist s _; simp [scanLoop, afterGets, calls, getCallsFrom]
  | cons d rest ih =>
    intro i0 index result exist s hmiss
    have h0 : (d.Get ctx key s).1.2 = (false, none) := hmiss _ (by simp [getReplies])
    have h1 : (d.Get ctx key s).1.2.2 = none := by rw [h0]
    have h2 : (d.Get ctx key s).1.2.1 = false := by rw [h0]
    have hm : ∀ r ∈ getReplies ctx key rest (d.Get ctx key s).2, r.2 = (false, none) := by
      intro r hr
      exact hmiss r (by simp [getReplies, hr])
    obtain ⟨e1, e2, e3⟩ := ih (i0 + 1) index result exist (d.Get ctx key s).2 hm
    refine ⟨?_, ?_, ?_⟩
    · simp [scanLoop, h1, h2, e1]
    · simp [scanLoop, h1, h2, e2, afterGets]
    · rw [List.length_cons, getCallsFrom_succ, ← e3]; simp [scanLoop, h1, h2, calls]

end ScanOutcomes

/-! ## The write loops -/

section Backfill

variable {σ C T : Type}

/-- The backfill loop writes every layer it is given exactly once, in order. -/
theorem backfillLoop_calls (expiration : Duration) (ctx : C) (key : String) (v : T) :
    ∀ (ls : List (Cache σ C T)) (i0 : Nat) (s : σ),
      calls (backfillLoop expiration ctx key v i0 ls s).2 =
        setCallsFrom expiration ctx key v i0 ls.length := by
  intro ls
  induction ls with
  | nil => intro i0 s; simp [backfillLoop, calls, setCallsFrom]
  | cons d rest ih =>
    intro i0 s
    rw [List.length_cons, setCallsFrom_succ, ← ih (i0 + 1) (d.Set ctx key v expiration s).2]
    simp [backfillLoop, calls]

/-- Writes to other positions keep what a layer holds. -/
theorem backfillLoop_preserves (expiration : Duration) (ctx : C) (key : String) (v : T)
    (c : Cache σ C T) :
    ∀ (ls : List (Cache σ C T)) (i0 : Nat) (s : σ),
      (∀ d ∈ ls, ∀ t, Holds c ctx key v t → Holds c ctx key v (d.Set ctx key v expiration t).2) →
      Holds c ctx key v s →
      Holds c ctx key v (backfillLoop expiration ctx key v i0 ls s).1 := by
  intro ls
  induction ls with
  | nil => intro i0 s _ h; simpa [backfillLoop] using h
  | cons d rest ih =>
    intro i0 s hfr h
    have h1 := hfr d (by simp) s h
    have := ih (i0 + 1) (d.Set ctx key v expiration s).2
      (fun d2 hd2 => hfr d2 (by simp [hd2])) h1
    simpa [backfillLoop] using this

theorem StoreLike.tail {expiration : Duration} {ctx : C} {key : String} {v : T}
    {d : Cache σ C T} {rest : List (Cache σ C T)}
    (h : StoreLike (d :: rest) expiration ctx key v) : StoreLike rest expiration ctx key v := by
  refine ⟨fun c hc => h.1 c (by simp [hc]), ?_⟩
  intro j k c e hjk hj hk
  exact h.2 (j + 1) (k + 1) c e (by omega) (by simpa using hj) (by simpa using hk)

theorem set_not_mem_of_lt (expiration : Duration) (ctx : C) (key : String) (v : T)
    (tr : List (Event C T)) (i0 n j : Nat) (r : Reply T)
    (hc : calls tr = setCallsFrom expiration ctx key v i0 n) (hj : j < i0) :
    (Call.set j ctx key v expiration, r) ∉ tr := by
  intro hmem
  have : Call.set j ctx key v expiration ∈ calls tr := by
    simp only [calls, List.mem_map]
    exact ⟨_, hmem, rfl⟩
  rw [hc] at this
  simp [setCallsFrom] at this
  omega

/-- Backfill over store-like layers: every layer whose write was accepted
holds the value when the loop is done. -/
theorem backfillLoop_holds (expiration : Duration) (ctx : C) (key : String) (v : T) :
    ∀ (ls : List (Cache σ C T)) (i0 : Nat) (s : σ),
      StoreLike ls expiration ctx key v →
      ∀ (j : Nat) (c : Cache σ C T), ls[j]? = some c →
        (Call.set (i0 + j) ctx key v expiration, Reply.done none) ∈
          (backfillLoop expiration ctx key v i0 ls s).2 →
        Holds c ctx key v (backfillLoop expiration ctx key v i0 ls s).1 := by
  intro ls
  induction ls with
  | nil => intro i0 s _ j c hc; simp at hc
  | cons d rest ih =>
    intro i0 s hsl j c hc hmem
    have htail := set_not_mem_of_lt expiration ctx key v
      (backfillLoop expiration ctx key v (i0 + 1) rest (d.Set ctx key v expiration s).2).2
      (i0 + 1) rest.length
    cases j with
    | zero =>
      have hd : d = c := by simpa using hc
      subst hd
      have hacc : (d.Set ctx key v expiration s).1 = none := by
        simp only [backfillLoop, List.mem_cons, Nat.add_zero] at hmem
        rcases hmem with h | h
        · have := congrArg Prod.snd h
          simpa using this.symm
        · exact absurd h (htail i0 _ (backfillLoop_calls _ _ _ _ _ _ _) (Nat.lt_succ_self i0))
      have h1 := hsl.1 d (by simp) s hacc
      have := backfillLoop_preserves expiration ctx key v d rest (i0 + 1)
        (d.Set ctx key v expiration s).2
        (fun e he t ht => by
          obtain ⟨k, hk⟩ := List.mem_iff_getElem?.1 he
          exact hsl.2 0 (k + 1) d e (by omega) (by simp) (by simpa using hk) t ht) h1
      simpa [backfillLoop] using this
    | succ j =>
      have hc2 : rest[j]? = some c := by simpa using hc
      have hmem2 : (Call.set (i0 + 1 + j) ctx key v expiration, Reply.done none) ∈
          (backfillLoop expiration ctx key v (i0 + 1) rest (d.Set ctx key v expiration s).2).2 := by
        simp only [backfillLoop, List.mem_cons] at hmem
        rcases hmem with h | h
        · have := congrArg Prod.fst h
          simp at this
        · have e : i0 + 1 + j = i0 + (j + 1) := by omega
          rw [e]; exact h
      have := ih (i0 + 1) (d.Set ctx key v expiration s).2 hsl.tail j c hc2 hmem2
      simpa [backfillLoop] using this

/-- Every layer handed to the backfill loop is written: its write, with the
answer it gave, is in the trace. -/
theorem backfillLoop_mem (expiration : Duration) (ctx : C) (key : String) (v : T) :
    ∀ (ls : List (Cache σ C T)) (i0 : Nat) (s : σ) (j : Nat) (c : Cache σ C T),
      ls[j]? = some c →
      ∃ t, (Call.set (i0 + j) ctx key v expiration, Reply.done (c.Set ctx key v expiration t).1) ∈
        (backfillLoop expiration ctx key v i0 ls s).2 := by
  intro ls
  induction ls with
  | nil => intro i0 s j c hc; simp at hc
  | cons d rest ih =>
    intro i0 s j c hc
    cases j with
    | zero =>
      have hd : d = c := by simpa using hc
      subst hd
      exact ⟨s, by simp [backfillLoop]⟩
    | succ j =>
      obtain ⟨t, ht⟩ := ih (i0 + 1) (d.Set ctx key v expiration s).2 j c (by simpa using hc)
      refine ⟨t, ?_⟩
      have e : i0 + 1 + j = i0 + (j + 1) := by omega
      rw [e] at ht
      simp only [backfillLoop, List.mem_cons]
      exact Or.inr ht

end Backfill


section SetLoop

variable {σ C T : Type}

/-- When no layer refuses, the loop of `Set` returns `nil` and does what the
backfill loop does: one accepted write per layer, in order. -/
theorem setLoop_ok (expiration : Duration) (ctx : C) (key : String) (v : T) :
    ∀ (ls : List (Cache σ C T)) (i0 : Nat) (s : σ),
      (∀ r ∈ setReplies expiration ctx key v ls s, r = none) →
      (setLoop expiration ctx key v i0 ls s).1 = none ∧
      (setLoop expiration ctx key v i0 ls s).2.1 = (backfillLoop expiration ctx key v i0 ls s).1 ∧
      (setLoop expiration ctx key v i0 ls s).2.2 = (backfillLoop expiration ctx key v i0 ls s).2 ∧
      (setLoop expiration ctx key v i0 ls s).2.2 =
        (setCallsFrom expiration ctx key v i0 ls.length).map fun c => (c, Reply.done none) := by
  intro ls
  induction ls with
  | nil => intro i0 s _; simp [setLoop, backfillLoop, setCallsFrom]
  | cons d rest ih =>
    intro i0 s hok
    have h0 : (d.Set ctx key v expiration s).1 = none := hok _ (by simp [setReplies])
    have hr : ∀ r ∈ setReplies expiration ctx key v rest (d.Set ctx key v expiration s).2,
        r = none := fun r hr => hok r (by simp [setReplies, hr])
    obtain ⟨e1, e2, e3, e4⟩ := ih (i0 + 1) (d.Set ctx key v expiration s).2 hr
    refine ⟨?_, ?_, ?_, ?_⟩
    · simp [setLoop, h0, e1]
    · simp [setLoop, backfillLoop, h0, e2]
    · simp [setLoop, backfillLoop, h0, e3]
    · rw [List.length_cons, setCallsFrom_succ]
      simp [setLoop, h0, e4]

/-- The loop of `Set` up to the first refusal: it stops there and returns the
error attributed to the refusing layer. -/
theorem setLoop_fail (expiration : Duration) (ctx : C) (key : String) (v : T) (e : String) :
    ∀ (ls : List (Cache σ C T)) (i0 k : Nat) (s : σ) (c : Cache σ C T),
      (∀ j, j < k → (setReplies expiration ctx key v ls s)[j]? = some none) →
      (setReplies expiration ctx key v ls s)[k]? = some (some e) →
      ls[k]? = some c →
      (setLoop expiration ctx key v i0 ls s).1 = some (Errorf c.Name e) ∧
      calls (setLoop expiration ctx key v i0 ls s).2.2 =
        setCallsFrom expiration ctx key v i0 (k + 1) := by
  intro ls
  induction ls with
  | nil => intro i0 k s c _ hfail; simp [setReplies] at hfail
  | cons d rest ih =>
    intro i0 k s c hacc hfail hc
    cases k with
    | zero =>
      have h0 : (d.Set ctx key v expiration s).1 = some e := by
        simpa [setReplies] using hfail
      have hd : d = c := by simpa using hc
      subst hd
      simp [setLoop, h0, calls, setCallsFrom]
    | succ k =>
      have h0 : (d.Set ctx key v expiration s).1 = none := by
        simpa [setReplies] using hacc 0 (Nat.succ_pos k)
      have ha : ∀ j, j < k →
          (setReplies expiration ctx key v rest (d.Set ctx key v expiration s).2)[j]? =
            some none := by
        intro j hj
        simpa [setReplies] using hacc (j + 1) (Nat.succ_lt_succ hj)
      have hf : (setReplies expiration ctx key v rest (d.Set ctx key v expiration s).2)[k]? =
          some (some e) := by simpa [setReplies] using hfail
      have hc2 : rest[k]? = some c := by simpa using hc
      obtain ⟨e1, e2⟩ := ih (i0 + 1) k (d.Set ctx key v expiration s).2 c ha hf hc2
      refine ⟨?_, ?_⟩
      · simp [setLoop, h0, e1]
      · rw [setCallsFrom_succ, ← e2]; simp [setLoop, h0, calls]

theorem setReplies_length (expiration : Duration) (ctx : C) (key : String) (v : T) :
    ∀ (ls : List (Cache σ C T)) (s : σ),
      (setReplies expiration ctx key v ls s).length = ls.length := by
  intro ls
  induction ls with
  | nil => intro s; simp [setReplies]
  | cons d rest ih => intro s; simp [setReplies, ih]

theorem getReplies_length (ctx : C) (key : String) :
    ∀ (ls : List (Cache σ C T)) (s : σ), (getReplies ctx key ls s).length = ls.length := by
  intro ls
  induction ls with
  | nil => intro s; simp [getReplies]
  | cons d rest ih => intro s; simp [getReplies, ih]

/-- A refusal among the answers has a first one. -/
theorem exists_first_refusal (l : List (Option String)) (h : ∃ r ∈ l, r ≠ none) :
    ∃ (k : Nat) (e : String), (∀ j, j < k → l[j]? = some none) ∧ l[k]? = some (some e) := by
  induction l with
  | nil => simp at h
  | cons a rest ih =>
    cases a with
    | some e => exact ⟨0, e, by simp, by simp⟩
    | none =>
      have h2 : ∃ r ∈ rest, r ≠ none := by
        obtain ⟨r, hr, hne⟩ := h
        simp only [List.mem_cons] at hr
        rcases hr with rfl | hr
        · exact absurd rfl hne
        · exact ⟨r, hr, hne⟩
      obtain ⟨k, e, hk, he⟩ := ih h2
      refine ⟨k + 1, e, ?_, by simpa using he⟩
      intro j hj
      cases j with
      | zero => simp
      | succ j => simpa using hk j (by omega)

/-- The text of an attributed error contains the layer name and the cause. -/
theorem Errorf_contains (name err : String) :
    List.IsInfix name.data (Errorf name err).data ∧
      List.IsInfix err.data (Errorf name err).data := by
  constructor
  · exact ⟨"cache:".data, "  error: ".data ++ err.data, by simp [Errorf, String.data_append]⟩
  · exact ⟨"cache:".data ++ name.data ++ "  error: ".data, [], by simp [Errorf, String.data_append]⟩

theorem getCallsFrom_zero (ctx : C) (key : String) (n : Nat) :
    (getCallsFrom ctx key 0 n : List (Call C T)) =
      (List.range n).map fun j => Call.get j ctx key := by
  simp [getCallsFrom, List.range_eq_range']

theorem setCallsFrom_zero (expiration : Duration) (ctx : C) (key : String) (v : T) (n : Nat) :
    setCallsFrom expiration ctx key v 0 n =
      (List.range n).map fun j => Call.set j ctx key v expiration := by
  simp [setCallsFrom, List.range_eq_range']

theorem calls_append (a b : List (Event C T)) : calls (a ++ b) = calls a ++ calls b := by
  simp [calls]

end SetLoop

section DeepHit

variable {σ C T : Type} [Inhabited T]

/-- A clean hit at a position `i > 0` behind clean misses: `Get` answers with
the hit and runs the backfill loop over the first `i` layers. -/
theorem Get_deep_hit_eq (mc : MultilayerCache σ C T) (ctx : C) (key : String) (s : σ)
    (i : Nat) (v : T) (hi : 0 < i)
    (hmiss : ∀ j, j < i → ∃ u, (getReplies ctx key mc.caches s)[j]? = some (u, false, none))
    (hhit : (getReplies ctx key mc.caches s)[i]? = some (v, true, none)) :
    mc.Get ctx key s =
      ((v, true, none),
        (backfillLoop mc.expiration ctx key v 0 (mc.caches.take i)
          (scanLoop ctx key 0 mc.caches 0 default false s).2.1).1,
        (scanLoop ctx key 0 mc.caches 0 default false s).2.2 ++
          (backfillLoop mc.expiration ctx key v 0 (mc.caches.take i)
            (scanLoop ctx key 0 mc.caches 0 default false s).2.1).2) := by
  obtain ⟨e1, _, _⟩ := scanLoop_hit ctx key v mc.caches 0 i 0 default false s hmiss hhit
  have hne : i ≠ 0 := by omega
  simp [MultilayerCache.Get, e1, hne]

end DeepHit


/-! ## Claims about `Get` -/

section ShallowHit

variable {σ C T : Type} [Inhabited T]

/-- A clean hit at position `0`: `Get` reads the first layer only and takes
the final `return mc.zero, false, nil`. -/
theorem Get_shallow_hit_eq (mc : MultilayerCache σ C T) (ctx : C) (key : String) (s : σ) (v : T)
    (hhit : (getReplies ctx key mc.caches s)[0]? = some (v, true, none)) :
    (mc.Get ctx key s).1 = (mc.zero, false, none) ∧
      calls (mc.Get ctx key s).2.2 = [Call.get 0 ctx key] := by
  obtain ⟨e1, _, e3⟩ := scanLoop_hit ctx key v mc.caches 0 0 0 default false s
    (fun j hj => absurd hj (Nat.not_lt_zero j)) hhit
  constructor
  · simp [MultilayerCache.Get, e1]
  · simpa [MultilayerCache.Get, e1, getCallsFrom] using e3

end ShallowHit

/-- C1, at a hit in the first layer: a single in-memory layer that
holds `7` under `"k"` answers `Get` with `(7, true, nil)`, yet
`MultilayerCache.Get` returns `(0, false, nil)`, a miss with the zero value,
where the claim promises `(7, true, nil)`. -/
theorem Get_first_layer_hit_returns_miss :
    getReplies () "k" memoryOnly.caches [((0, "k"), 7)] = [(7, true, none)] ∧
      (memoryOnly.Get () "k" [((0, "k"), 7)]).1 = (0, false, none) := by
  decide

/-- C2, the round trip over two in-memory layers: `Set("k", 7)`
returns `nil` and stores `7` in both layers, and the `Get("k")` that follows
returns `(0, false, nil)` where the claim promises `(7, true, nil)`. -/
theorem Set_then_Get_returns_miss :
    (memoryRemote.Set () "k" 7 []).1 = none ∧
      getReplies () "k" memoryRemote.caches (memoryRemote.Set () "k" 7 []).2.1 =
        [(7, true, none), (7, true, none)] ∧
      (memoryRemote.Get () "k" (memoryRemote.Set () "k" 7 []).2.1).1 = (0, false, none) := by
  decide

section GetResults

variable {σ C T : Type} [Inhabited T]

/-- C3, backfill on a deep hit: when layers `0..i-1` miss without error and
layer `i > 0` answers `(v, true, nil)`, the calls of `Get` are the reads of
layers `0..i` followed by exactly one `set(key, v, expiration)` to each of the
layers `0..i-1`, in index order, and nothing else.  When those layers are
store-like, every one of them whose backfill write was accepted holds `v`
under `key` when `Get` returns; so all of them do when they accept writes. -/
theorem Get_deep_hit_backfills (mc : MultilayerCache σ C T) (ctx : C) (key : String) (s : σ)
    (i : Nat) (v : T) (hi : 0 < i)
    (hmiss : ∀ j, j < i → ∃ u, (getReplies ctx key mc.caches s)[j]? = some (u, false, none))
    (hhit : (getReplies ctx key mc.caches s)[i]? = some (v, true, none)) :
    calls (mc.Get ctx key s).2.2 =
        ((List.range (i + 1)).map fun j => Call.get j ctx key) ++
          ((List.range i).map fun j => Call.set j ctx key v mc.expiration) ∧
      (StoreLike (mc.caches.take i) mc.expiration ctx key v →
        ∀ (j : Nat) (c : Cache σ C T), j < i → mc.caches[j]? = some c →
          ((Call.set j ctx key v mc.expiration, Reply.done none) ∈ (mc.Get ctx key s).2.2 →
            Holds c ctx key v (mc.Get ctx key s).2.1) ∧
          ((∀ t, (c.Set ctx key v mc.expiration t).1 = none) →
            Holds c ctx key v (mc.Get ctx key s).2.1)) := by
  have hlen : i < mc.caches.length := by
    have := (List.getElem?_eq_some_iff.1 hhit).1
    rwa [getReplies_length] at this
  have hget := Get_deep_hit_eq mc ctx key s i v hi hmiss hhit
  obtain ⟨_, _, e3⟩ := scanLoop_hit ctx key v mc.caches 0 i 0 default false s hmiss hhit
  have hb := backfillLoop_calls mc.expiration ctx key v (mc.caches.take i) 0
    (scanLoop ctx key 0 mc.caches 0 default false s).2.1
  have htl : (mc.caches.take i).length = i := by
    rw [List.length_take]; omega
  constructor
  · rw [hget]
    simp only [calls_append, e3, hb, htl, getCallsFrom_zero, setCallsFrom_zero]
  · intro hsl j c hj hc
    have hc2 : (mc.caches.take i)[j]? = some c := by
      rw [List.getElem?_take_of_lt hj]; exact hc
    have key1 : (Call.set j ctx key v mc.expiration, Reply.done none) ∈ (mc.Get ctx key s).2.2 →
        Holds c ctx key v (mc.Get ctx key s).2.1 := by
      intro hmem
      rw [hget] at hmem ⊢
      simp only [List.mem_append] at hmem
      rcases hmem with hmem | hmem
      · exfalso
        have : Call.set j ctx key v mc.expiration ∈
            calls (scanLoop ctx key 0 mc.caches 0 default false s).2.2 := by
          simp only [calls, List.mem_map]
          exact ⟨_, hmem, rfl⟩
        rw [e3] at this
        simp [getCallsFrom] at this
      · have := backfillLoop_holds mc.expiration ctx key v (mc.caches.take i) 0
          (scanLoop ctx key 0 mc.caches 0 default false s).2.1 hsl j c hc2
          (by simpa using hmem)
        exact this
    refine ⟨key1, ?_⟩
    intro hall
    apply key1
    rw [hget]
    obtain ⟨t, ht⟩ := backfillLoop_mem mc.expiration ctx key v (mc.caches.take i) 0
      (scanLoop ctx key 0 mc.caches 0 default false s).2.1 j c hc2
    rw [hall t] at ht
    simp only [List.mem_append]
    right
    simpa using ht

/-- C4, a miss propagates: when every layer answers `found = false` without
error, `Get` returns the zero value of `T`, `false` and no error, for layer
lists of any length. -/
theorem Get_all_miss (expiration : Duration) (layers : List (Cache σ C T)) (ctx : C)
    (key : String) (s : σ)
    (hmiss : ∀ r ∈ getReplies ctx key layers s, r.2 = (false, none)) :
    ((NewMultilayerCache expiration layers).Get ctx key s).1 = (default, false, none) := by
  obtain ⟨e1, _, _⟩ := scanLoop_miss ctx key layers 0 0 default false s hmiss
  simp [MultilayerCache.Get, NewMultilayerCache, e1]

end GetResults


/-! ## The in-memory layers are store-like -/

theorem memLayer_holds_after_set (id : Nat) (name key : String) (v : Nat) (d : Duration)
    (s : Tables) :
    Holds (memLayer id name) () key v ((memLayer id name).Set () key v d s).2 := by
  simp [Holds, memLayer, List.lookup]

theorem memLayer_frame (id id2 : Nat) (name name2 key : String) (v : Nat) (d : Duration)
    (s : Tables) (hne : id ≠ id2) (h : Holds (memLayer id name) () key v s) :
    Holds (memLayer id name) () key v ((memLayer id2 name2).Set () key v d s).2 := by
  have hb : ((id, key) == (id2, key)) = false := by
    simp [hne]
  simp only [Holds, memLayer, List.lookup, hb] at h ⊢
  cases hl : List.lookup (id, key) s <;> simp [hl] at h ⊢
  exact h

theorem memoryRemote_storeLike (d : Duration) (key : String) (v : Nat) :
    StoreLike memoryRemote.caches d () key v := by
  constructor
  · intro c hc s _
    simp only [memoryRemote, NewMultilayerCache, List.mem_cons, List.mem_singleton,
      List.not_mem_nil, or_false] at hc
    rcases hc with rfl | rfl <;> exact memLayer_holds_after_set _ _ _ _ _ _
  · intro j k c e hjk hj hk s h
    have hj2 : j < 2 := by
      have := (List.getElem?_eq_some_iff.1 hj).1
      simpa [memoryRemote, NewMultilayerCache] using this
    have hk2 : k < 2 := by
      have := (List.getElem?_eq_some_iff.1 hk).1
      simpa [memoryRemote, NewMultilayerCache] using this
    interval_cases j <;> interval_cases k <;>
      simp [memoryRemote, NewMultilayerCache] at hj hk hjk <;>
      subst hj <;> subst hk
    · exact memLayer_frame 0 1 _ _ _ _ _ _ (by decide) h
    · exact memLayer_frame 1 0 _ _ _ _ _ _ (by decide) h

theorem memoryRemote_take_storeLike (d : Duration) (key : String) (v : Nat) :
    StoreLike (memoryRemote.caches.take 1) d () key v := by
  constructor
  · intro c hc s _
    simp only [memoryRemote, NewMultilayerCache, List.take, List.mem_singleton] at hc
    subst hc
    exact memLayer_holds_after_set _ _ _ _ _ _
  · intro j k c e hjk hj hk s h
    have hj2 : j < 1 := by
      have := (List.getElem?_eq_some_iff.1 hj).1
      simpa [memoryRemote, NewMultilayerCache] using this
    have hk2 : k < 1 := by
      have := (List.getElem?_eq_some_iff.1 hk).1
      simpa [memoryRemote, NewMultilayerCache] using this
    omega

/-- Instance of C3: `[Memory, Remote]` with `"k"` held by `Remote` only. -/
theorem Get_deep_hit_backfills_witness :
    (∀ j, j < 1 →
        ∃ u, (getReplies () "k" memoryRemote.caches [((1, "k"), 7)])[j]? = some (u, false, none)) ∧
      (getReplies () "k" memoryRemote.caches [((1, "k"), 7)])[1]? = some (7, true, none) ∧
      calls (memoryRemote.Get () "k" [((1, "k"), 7)]).2.2 =
        [Call.get 0 () "k", Call.get 1 () "k", Call.set 0 () "k" 7 300000000000] ∧
      Holds (memLayer 0 "memory") () "k" 7 (memoryRemote.Get () "k" [((1, "k"), 7)]).2.1 := by
  have h2 : ∀ j, j < 1 →
      ∃ u, (getReplies () "k" memoryRemote.caches [((1, "k"), 7)])[j]? =
        some (u, false, none) := by
    intro j hj
    obtain rfl : j = 0 := by omega
    exact ⟨0, by decide⟩
  have h3 : (getReplies () "k" memoryRemote.caches [((1, "k"), 7)])[1]? =
      some (7, true, none) := by decide
  have h := Get_deep_hit_backfills memoryRemote () "k" [((1, "k"), 7)] 1 7 (by decide) h2 h3
  refine ⟨h2, h3, h.1, ?_⟩
  exact (h.2 (memoryRemote_take_storeLike _ _ _) 0 (memLayer 0 "memory") (by decide) rfl).1
    (by decide)

/-- Instance of C4: `"k"` is in neither layer of `[Memory, Remote]`. -/
theorem Get_all_miss_witness :
    (∀ r ∈ getReplies () "k" [memLayer 0 "memory", memLayer 1 "remote"] [((1, "other"), 7)],
        r.2 = (false, none)) ∧
      ((NewMultilayerCache 300000000000 [memLayer 0 "memory", memLayer 1 "remote"]).Get ()
        "k" [((1, "other"), 7)]).1 = (0, false, none) := by
  have h : ∀ r ∈ getReplies () "k" [memLayer 0 "memory", memLayer 1 "remote"]
      [((1, "other"), 7)], r.2 = (false, none) := by decide
  exact ⟨h, Get_all_miss 300000000000 _ () "k" _ h⟩


/-! ## Claims about `Set` -/

section SetResults

variable {σ C T : Type}

/-- C5, fail-fast write: when layers `0..k-1` accept the write and layer `k`
refuses it, the calls of `Set` are exactly one `set(key, value, expiration)`
to each of the layers `0..k`, in index order.  Nothing is issued to layers
`k+1..N-1`, and no delete or further set reaches layers `0..k-1`: their
writes are not rolled back. -/
theorem Set_fail_fast (mc : MultilayerCache σ C T) (ctx : C) (key : String) (value : T) (s : σ)
    (k : Nat) (e : String)
    (hacc : ∀ j, j < k →
      (setReplies mc.expiration ctx key value mc.caches s)[j]? = some none)
    (hfail : (setReplies mc.expiration ctx key value mc.caches s)[k]? = some (some e)) :
    calls (mc.Set ctx key value s).2.2 =
      (List.range (k + 1)).map fun j => Call.set j ctx key value mc.expiration := by
  have hlen : k < mc.caches.length := by
    have := (List.getElem?_eq_some_iff.1 hfail).1
    rwa [setReplies_length] at this
  obtain ⟨_, e2⟩ := setLoop_fail mc.expiration ctx key value e mc.caches 0 k s
    (mc.caches[k]) hacc hfail (List.getElem?_eq_getElem hlen)
  rw [← setCallsFrom_zero]
  exact e2

/-- C6, error attribution of `Set`: the returned error is non-nil exactly
when some layer refuses its write; it is then attributed to the first
refusing layer `k`, its text being `"cache:<name>  error: <cause>"` with the
name of layer `k` and the text of the error layer `k` returned, both of which
it contains; when no layer refuses, `Set` returns `nil`. -/
theorem Set_error_attribution (mc : MultilayerCache σ C T) (ctx : C) (key : String) (value : T)
    (s : σ) :
    ((mc.Set ctx key value s).1 ≠ none ↔
        ∃ r ∈ setReplies mc.expiration ctx key value mc.caches s, r ≠ none) ∧
      ((∀ r ∈ setReplies mc.expiration ctx key value mc.caches s, r = none) →
        (mc.Set ctx key value s).1 = none) ∧
      (∀ (k : Nat) (e : String) (c : Cache σ C T),
        (∀ j, j < k → (setReplies mc.expiration ctx key value mc.caches s)[j]? = some none) →
        (setReplies mc.expiration ctx key value mc.caches s)[k]? = some (some e) →
        mc.caches[k]? = some c →
        (mc.Set ctx key value s).1 = some ("cache:" ++ c.Name ++ "  error: " ++ e) ∧
          List.IsInfix c.Name.data ("cache:" ++ c.Name ++ "  error: " ++ e).data ∧
          List.IsInfix e.data ("cache:" ++ c.Name ++ "  error: " ++ e).data) := by
  have hok : (∀ r ∈ setReplies mc.expiration ctx key value mc.caches s, r = none) →
      (mc.Set ctx key value s).1 = none :=
    fun h => (setLoop_ok mc.expiration ctx key value mc.caches 0 s h).1
  have hatt : ∀ (k : Nat) (e : String) (c : Cache σ C T),
      (∀ j, j < k → (setReplies mc.expiration ctx key value mc.caches s)[j]? = some none) →
      (setReplies mc.expiration ctx key value mc.caches s)[k]? = some (some e) →
      mc.caches[k]? = some c →
      (mc.Set ctx key value s).1 = some ("cache:" ++ c.Name ++ "  error: " ++ e) :=
    fun k e c h1 h2 h3 => (setLoop_fail mc.expiration ctx key value e mc.caches 0 k s c h1 h2 h3).1
  refine ⟨⟨?_, ?_⟩, hok, ?_⟩
  · intro hne
    by_contra hnone
    apply hne
    apply hok
    intro r hr
    by_contra hr2
    exact hnone ⟨r, hr, hr2⟩
  · intro hex
    obtain ⟨k, e, h1, h2⟩ := exists_first_refusal _ hex
    have hlen : k < mc.caches.length := by
      have := (List.getElem?_eq_some_iff.1 h2).1
      rwa [setReplies_length] at this
    rw [hatt k e (mc.caches[k]) h1 h2 (List.getElem?_eq_getElem hlen)]
    simp
  · intro k e c h1 h2 h3
    exact ⟨hatt k e c h1 h2 h3, Errorf_contains c.Name e⟩

/-- C7, fan-out write: when every layer accepts its write, `Set` returns
`nil` and its calls are exactly one `set(key, value, expiration)` per layer,
in index order `0..N-1`.  When the layers are store-like, every layer then
holds the value: asked in the world `Set` leaves behind, it reports
`found = true` with that value. -/
theorem Set_fan_out (mc : MultilayerCache σ C T) (ctx : C) (key : String) (value : T) (s : σ)
    (hok : ∀ r ∈ setReplies mc.expiration ctx key value mc.caches s, r = none) :
    (mc.Set ctx key value s).1 = none ∧
      calls (mc.Set ctx key value s).2.2 =
        ((List.range mc.caches.length).map fun j => Call.set j ctx key value mc.expiration) ∧
      (StoreLike mc.caches mc.expiration ctx key value →
        ∀ (j : Nat) (c : Cache σ C T), mc.caches[j]? = some c →
          Holds c ctx key value (mc.Set ctx key value s).2.1) := by
  obtain ⟨e1, e2, e3, e4⟩ := setLoop_ok mc.expiration ctx key value mc.caches 0 s hok
  refine ⟨e1, ?_, ?_⟩
  · have := backfillLoop_calls mc.expiration ctx key value mc.caches 0 s
    rw [← e3, setCallsFrom_zero] at this
    exact this
  · intro hsl j c hc
    have hlen : j < mc.caches.length := (List.getElem?_eq_some_iff.1 hc).1
    have hmem : (Call.set (0 + j) ctx key value mc.expiration, Reply.done none) ∈
        (backfillLoop mc.expiration ctx key value 0 mc.caches s).2 := by
      rw [← e3, e4, Nat.zero_add]
      simp only [List.mem_map, setCallsFrom, List.mem_range']
      exact ⟨_, ⟨j, ⟨j, hlen, by omega⟩, rfl⟩, rfl⟩
    have := backfillLoop_holds mc.expiration ctx key value mc.caches 0 s hsl j c hc hmem
    simp only [MultilayerCache.Set]
    rw [e2]
    exact this

end SetResults

/-- Instance of C5: the backend behind the in-memory layer is down. -/
theorem Set_fail_fast_witness :
    (∀ j, j < 1 →
        (setReplies brokenBack.expiration () "k" 7 brokenBack.caches [])[j]? = some none) ∧
      (setReplies brokenBack.expiration () "k" 7 brokenBack.caches [])[1]? =
        some (some "timeout") ∧
      calls (brokenBack.Set () "k" 7 []).2.2 =
        [Call.set 0 () "k" 7 300000000000, Call.set 1 () "k" 7 300000000000] := by
  have h1 : ∀ j, j < 1 →
      (setReplies brokenBack.expiration () "k" 7 brokenBack.caches [])[j]? = some none := by
    intro j hj
    obtain rfl : j = 0 := by omega
    decide
  have h2 : (setReplies brokenBack.expiration () "k" 7 brokenBack.caches [])[1]? =
      some (some "timeout") := by decide
  exact ⟨h1, h2, Set_fail_fast brokenBack () "k" 7 [] 1 "timeout" h1 h2⟩

/-- Instance of C6: the backend behind the in-memory layer is down, the error
names it. -/
theorem Set_error_attribution_witness :
    (brokenBack.Set () "k" 7 []).1 = some "cache:remote  error: timeout" := by
  have h1 : ∀ j, j < 1 →
      (setReplies brokenBack.expiration () "k" 7 brokenBack.caches [])[j]? = some none := by
    intro j hj
    obtain rfl : j = 0 := by omega
    decide
  exact ((Set_error_attribution brokenBack () "k" 7 []).2.2 1 "timeout" (downLayer "remote")
    h1 (by decide) rfl).1

/-- Instance of C7: a write through `[Memory, Remote]`. -/
theorem Set_fan_out_witness :
    (∀ r ∈ setReplies memoryRemote.expiration () "k" 7 memoryRemote.caches [], r = none) ∧
      (memoryRemote.Set () "k" 7 []).1 = none ∧
      calls (memoryRemote.Set () "k" 7 []).2.2 =
        [Call.set 0 () "k" 7 300000000000, Call.set 1 () "k" 7 300000000000] ∧
      Holds (memLayer 0 "memory") () "k" 7 (memoryRemote.Set () "k" 7 []).2.1 ∧
      Holds (memLayer 1 "remote") () "k" 7 (memoryRemote.Set () "k" 7 []).2.1 := by
  have h : ∀ r ∈ setReplies memoryRemote.expiration () "k" 7 memoryRemote.caches [],
      r = none := by decide
  have hs := Set_fan_out memoryRemote () "k" 7 [] h
  exact ⟨h, hs.1, hs.2.1,
    hs.2.2 (memoryRemote_storeLike _ _ _) 0 _ rfl, hs.2.2 (memoryRemote_storeLike _ _ _) 1 _ rfl⟩


/-! ## Claims about errors and frames of `Get` -/

section GetFrames

variable {σ C T : Type} [Inhabited T]

/-- C8, `Get` aborts on a scan error: when layers `0..j-1` miss without error
and the read of layer `j` returns the error `e`, `Get` returns a non-nil
error whose text is `"cache:<name>  error: <e>"` and so contains the name of
layer `j` and the text of `e`; its calls are exactly the reads of layers
`0..j`, so no layer behind `j` is read and no layer is written. -/
theorem Get_scan_error (mc : MultilayerCache σ C T) (ctx : C) (key : String) (s : σ)
    (j : Nat) (u : T) (ok : Bool) (e : String) (c : Cache σ C T)
    (hmiss : ∀ n, n < j → ∃ w, (getReplies ctx key mc.caches s)[n]? = some (w, false, none))
    (herr : (getReplies ctx key mc.caches s)[j]? = some (u, ok, some e))
    (hc : mc.caches[j]? = some c) :
    (mc.Get ctx key s).1.2.2 = some ("cache:" ++ c.Name ++ "  error: " ++ e) ∧
      List.IsInfix c.Name.data ("cache:" ++ c.Name ++ "  error: " ++ e).data ∧
      List.IsInfix e.data ("cache:" ++ c.Name ++ "  error: " ++ e).data ∧
      calls (mc.Get ctx key s).2.2 = ((List.range (j + 1)).map fun n => Call.get n ctx key) := by
  obtain ⟨e1, _, e3⟩ :=
    scanLoop_error ctx key u ok e mc.caches 0 j 0 default false s c hmiss herr hc
  refine ⟨?_, (Errorf_contains c.Name e).1, (Errorf_contains c.Name e).2, ?_⟩
  · simp [MultilayerCache.Get, e1, Errorf]
  · rw [← getCallsFrom_zero, ← e3]
    simp [MultilayerCache.Get, e1]

/-- C9, a backfill failure is invisible: on a hit at `i > 0` behind clean
misses, whatever the layers `0..i-1` answer to their backfill writes (nothing
is assumed about them), `Get` returns `(v, true, nil)`; after the reads of
layers `0..i` the backfill write of every layer below `i` is issued, and each
is in the trace with the answer that layer gave, accepted or refused. -/
theorem Get_backfill_failure_invisible (mc : MultilayerCache σ C T) (ctx : C) (key : String)
    (s : σ) (i : Nat) (v : T) (hi : 0 < i)
    (hmiss : ∀ j, j < i → ∃ u, (getReplies ctx key mc.caches s)[j]? = some (u, false, none))
    (hhit : (getReplies ctx key mc.caches s)[i]? = some (v, true, none)) :
    (mc.Get ctx key s).1 = (v, true, none) ∧
      (calls (mc.Get ctx key s).2.2).drop (i + 1) =
        ((List.range i).map fun j => Call.set j ctx key v mc.expiration) ∧
      (∀ j, j < i → ∃ (c : Cache σ C T) (t : σ), mc.caches[j]? = some c ∧
        (Call.set j ctx key v mc.expiration, Reply.done (c.Set ctx key v mc.expiration t).1) ∈
          (mc.Get ctx key s).2.2) := by
  have hlen : i < mc.caches.length := by
    have := (List.getElem?_eq_some_iff.1 hhit).1
    rwa [getReplies_length] at this
  have hget := Get_deep_hit_eq mc ctx key s i v hi hmiss hhit
  obtain ⟨_, _, e3⟩ := scanLoop_hit ctx key v mc.caches 0 i 0 default false s hmiss hhit
  have hb := backfillLoop_calls mc.expiration ctx key v (mc.caches.take i) 0
    (scanLoop ctx key 0 mc.caches 0 default false s).2.1
  have htl : (mc.caches.take i).length = i := by
    rw [List.length_take]; omega
  refine ⟨by rw [hget], ?_, ?_⟩
  · rw [hget]
    simp only [calls_append, e3, hb, htl, setCallsFrom_zero]
    have hl : (getCallsFrom ctx key 0 (i + 1) : List (Call C T)).length = i + 1 := by
      simp [getCallsFrom]
    rw [List.drop_append_eq_append_drop, List.drop_of_length_le (Nat.le_of_eq hl), hl]
    simp
  · intro j hj
    have hj2 : j < mc.caches.length := by omega
    have hc2 : (mc.caches.take i)[j]? = some (mc.caches[j]) := by
      rw [List.getElem?_take_of_lt hj]; exact List.getElem?_eq_getElem hj2
    obtain ⟨t, ht⟩ := backfillLoop_mem mc.expiration ctx key v (mc.caches.take i) 0
      (scanLoop ctx key 0 mc.caches 0 default false s).2.1 j _ hc2
    refine ⟨mc.caches[j], t, List.getElem?_eq_getElem hj2, ?_⟩
    rw [hget]
    simp only [List.mem_append]
    right
    simpa using ht

/-- C10, no backfill on a shallow hit: when layer `0` answers with
`found = true` and no error, the only call `Get` issues is the read of layer
`0`: no layer is written and no layer at index `1` or above is read. -/
theorem Get_shallow_hit_no_backfill (mc : MultilayerCache σ C T) (ctx : C) (key : String)
    (s : σ) (v : T)
    (hhit : (getReplies ctx key mc.caches s)[0]? = some (v, true, none)) :
    calls (mc.Get ctx key s).2.2 = [Call.get 0 ctx key] :=
  (Get_shallow_hit_eq mc ctx key s v hhit).2

end GetFrames

/-- Instance of C8: the backend behind a missing in-memory layer is down. -/
theorem Get_scan_error_witness :
    (∀ n, n < 1 → ∃ w, (getReplies () "k" brokenBack.caches [])[n]? = some (w, false, none)) ∧
      (getReplies () "k" brokenBack.caches [])[1]? = some (0, false, some "timeout") ∧
      (brokenBack.Get () "k" []).1.2.2 = some "cache:remote  error: timeout" ∧
      calls (brokenBack.Get () "k" []).2.2 = [Call.get 0 () "k", Call.get 1 () "k"] := by
  have h1 : ∀ n, n < 1 →
      ∃ w, (getReplies () "k" brokenBack.caches [])[n]? = some (w, false, none) := by
    intro n hn
    obtain rfl : n = 0 := by omega
    exact ⟨0, by decide⟩
  have h2 : (getReplies () "k" brokenBack.caches [])[1]? = some (0, false, some "timeout") := by
    decide
  have h := Get_scan_error brokenBack () "k" [] 1 0 false "timeout" (downLayer "remote")
    h1 h2 rfl
  exact ⟨h1, h2, h.1, h.2.2.2⟩

/-- Instance of C9: the first layer refuses the backfill write, the second
one still receives its own, and the hit is returned. -/
theorem Get_backfill_failure_invisible_witness :
    (∀ j, j < 2 →
        ∃ u, (getReplies () "k" brokenFront.caches [((2, "k"), 7)])[j]? =
          some (u, false, none)) ∧
      (getReplies () "k" brokenFront.caches [((2, "k"), 7)])[2]? = some (7, true, none) ∧
      (brokenFront.Get () "k" [((2, "k"), 7)]).1 = (7, true, none) ∧
      (brokenFront.Get () "k" [((2, "k"), 7)]).2.2.drop 3 =
        [(Call.set 0 () "k" 7 300000000000, Reply.done (some "write refused")),
          (Call.set 1 () "k" 7 300000000000, Reply.done none)] := by
  have h1 : ∀ j, j < 2 →
      ∃ u, (getReplies () "k" brokenFront.caches [((2, "k"), 7)])[j]? =
        some (u, false, none) := by
    intro j hj
    interval_cases j <;> exact ⟨0, by decide⟩
  have h2 : (getReplies () "k" brokenFront.caches [((2, "k"), 7)])[2]? =
      some (7, true, none) := by decide
  have h := Get_backfill_failure_invisible brokenFront () "k" [((2, "k"), 7)] 2 7
    (by decide) h1 h2
  exact ⟨h1, h2, h.1, by decide⟩

/-- Instance of C10: both layers of `[Memory, Remote]` hold `"k"`. -/
theorem Get_shallow_hit_no_backfill_witness :
    (getReplies () "k" memoryRemote.caches [((0, "k"), 7), ((1, "k"), 7)])[0]? =
        some (7, true, none) ∧
      calls (memoryRemote.Get () "k" [((0, "k"), 7), ((1, "k"), 7)]).2.2 =
        [Call.get 0 () "k"] := by
  have h : (getReplies () "k" memoryRemote.caches [((0, "k"), 7), ((1, "k"), 7)])[0]? =
      some (7, true, none) := by decide
  exact ⟨h, Get_shallow_hit_no_backfill memoryRemote () "k" _ 7 h⟩


/-! ## Teardown -/

section CloseLoop

variable {σ C T : Type}

/-- The loop of `Close` closes the closeable layers it is given, each once
and in order, and calls nothing else. -/
theorem closeLoop_calls :
    ∀ (ls : List (Cache σ C T)) (i0 : Nat) (s : σ),
      calls (closeLoop i0 ls s).2 =
        ((List.range' i0 ls.length).filter fun j =>
          match ls[j - i0]? with
          | some c => c.closer.isSome
          | none => false).map Call.close := by
  intro ls
  induction ls with
  | nil => intro i0 s; simp [closeLoop, calls]
  | cons d rest ih =>
    intro i0 s
    have htail : ∀ t : σ, calls (closeLoop (i0 + 1) rest t).2 =
        ((List.range' (i0 + 1) rest.length).filter fun j =>
          match (d :: rest)[j - i0]? with
          | some c => c.closer.isSome
          | none => false).map Call.close := by
      intro t
      rw [ih (i0 + 1) t]
      congr 1
      apply List.filter_congr
      intro j hj
      have hj2 : i0 + 1 ≤ j := (List.mem_range'_1.1 hj).1
      have e : j - i0 = (j - (i0 + 1)) + 1 := by omega
      rw [e, List.getElem?_cons_succ]
    rw [List.length_cons, List.range'_succ, List.filter_cons]
    cases hcl : d.closer with
    | none =>
      simp only [Nat.sub_self, List.getElem?_cons_zero, hcl, Option.isSome_none,
        Bool.false_eq_true, if_false]
      rw [← htail s]
      simp [closeLoop, hcl]
    | some f =>
      simp only [Nat.sub_self, List.getElem?_cons_zero, hcl, Option.isSome_some, if_true,
        List.map_cons]
      rw [← htail (f s).2]
      simp [closeLoop, hcl, calls]

/-- The loop of `Close` invokes the closers of the layers it is given in
order, each in the world the previous one left: the answers in its trace and
the world it yields are theirs. -/
theorem closeLoop_effect :
    ∀ (ls : List (Cache σ C T)) (i0 : Nat) (s : σ),
      (closeLoop i0 ls s).2.map Prod.snd =
          (closeReplies (ls.filterMap Cache.closer) s).map Reply.done ∧
        (closeLoop i0 ls s).1 = afterCloses (ls.filterMap Cache.closer) s := by
  intro ls
  induction ls with
  | nil => intro i0 s; simp [closeLoop, closeReplies, afterCloses]
  | cons d rest ih =>
    intro i0 s
    cases hcl : d.closer with
    | none =>
      obtain ⟨e1, e2⟩ := ih (i0 + 1) s
      simp [closeLoop, hcl, List.filterMap_cons, e1, e2]
    | some f =>
      obtain ⟨e1, e2⟩ := ih (i0 + 1) (f s).2
      simp [closeLoop, hcl, List.filterMap_cons, closeReplies, afterCloses, e1, e2]

end CloseLoop

section CloseResults

variable {σ C T : Type}

/-- C11, `Close` is total and silent: whatever the layers answer, the calls
of `Close` are exactly one `Close()` on every layer that implements `Closer`,
in index order, and layers without the capability receive no call.  Each of
those closers is really invoked, in the world the previous one left: the
answers in the trace are the closers' answers, errors included, and the world
`Close` leaves is the one obtained by running all of them in order.  `Close`
yields nothing else to the caller. -/
theorem Close_total_and_silent (mc : MultilayerCache σ C T) (s : σ) :
    calls (mc.Close s).2 = (closerPositions mc.caches).map Call.close ∧
      (mc.Close s).2.map Prod.snd =
        (closeReplies (mc.caches.filterMap Cache.closer) s).map Reply.done ∧
      (mc.Close s).1 = afterCloses (mc.caches.filterMap Cache.closer) s := by
  have h := closeLoop_calls mc.caches 0 s
  have h2 := closeLoop_effect mc.caches 0 s
  refine ⟨?_, h2.1, h2.2⟩
  simpa [MultilayerCache.Close, closerPositions, List.range_eq_range'] using h

end CloseResults

/-- Instance of C11: the first and the last layer are closeable, the first
one fails to close, the middle one is not closeable; both sessions are closed
in the world `Close` leaves. -/
theorem Close_total_and_silent_witness :
    closerPositions closeMix.caches = [0, 2] ∧
      calls (closeMix.Close []).2 = [Call.close 0, Call.close 2] ∧
      (closeMix.Close []).2.map Prod.snd = [Reply.done (some "busy"), Reply.done none] ∧
      (closeMix.Close []).1 = [((2, "closed"), 1), ((0, "closed"), 1)] := by
  have h := Close_total_and_silent closeMix []
  exact ⟨by decide, h.1, h.2.1, h.2.2⟩


/-! ## The shape of the issued calls -/

section CallShape

variable {σ C T : Type}

/-- Every call of the loop of `Set` is a `Set` with the caller's arguments and
the given expiration. -/
theorem setLoop_shape (expiration : Duration) (ctx : C) (key : String) (v : T) :
    ∀ (ls : List (Cache σ C T)) (i0 : Nat) (s : σ),
      ∀ c ∈ calls (setLoop expiration ctx key v i0 ls s).2.2,
        ∃ j, c = Call.set j ctx key v expiration := by
  intro ls
  induction ls with
  | nil => intro i0 s c hc; simp [setLoop, calls] at hc
  | cons d rest ih =>
    intro i0 s c hc
    cases h0 : (d.Set ctx key v expiration s).1 with
    | some err =>
      simp [setLoop, h0, calls] at hc
      exact ⟨i0, hc⟩
    | none =>
      simp only [setLoop, h0, calls, List.map_cons, List.mem_cons] at hc
      rcases hc with hc | hc
      · exact ⟨i0, hc⟩
      · exact ih (i0 + 1) (d.Set ctx key v expiration s).2 c hc

/-- Every call of the scanning loop is a `Get` with the caller's arguments. -/
theorem scanLoop_shape (ctx : C) (key : String) :
    ∀ (ls : List (Cache σ C T)) (i0 index : Nat) (result : T) (exist : Bool) (s : σ),
      ∀ c ∈ calls (scanLoop ctx key i0 ls index result exist s).2.2,
        ∃ j, c = Call.get j ctx key := by
  intro ls
  induction ls with
  | nil => intro i0 index result exist s c hc; simp [scanLoop, calls] at hc
  | cons d rest ih =>
    intro i0 index result exist s c hc
    cases h1 : (d.Get ctx key s).1.2.2 with
    | some err =>
      simp [scanLoop, h1, calls] at hc
      exact ⟨i0, hc⟩
    | none =>
      cases h2 : (d.Get ctx key s).1.2.1 with
      | true =>
        simp [scanLoop, h1, h2, calls] at hc
        exact ⟨i0, hc⟩
      | false =>
        simp only [scanLoop, h1, h2, calls, List.map_cons, List.mem_cons, Bool.false_eq_true,
          if_false] at hc
        rcases hc with hc | hc
        · exact ⟨i0, hc⟩
        · exact ih (i0 + 1) index result exist (d.Get ctx key s).2 c (by simpa [calls] using hc)

/-- Every call of the backfill loop is a `Set` with the caller's context and
key, the value handed to the loop and the given expiration. -/
theorem backfillLoop_shape (expiration : Duration) (ctx : C) (key : String) (v : T)
    (ls : List (Cache σ C T)) (i0 : Nat) (s : σ) :
    ∀ c ∈ calls (backfillLoop expiration ctx key v i0 ls s).2,
      ∃ j, c = Call.set j ctx key v expiration := by
  intro c hc
  rw [backfillLoop_calls] at hc
  simp only [setCallsFrom, List.mem_map] at hc
  obtain ⟨j, _, hj⟩ := hc
  exact ⟨j, hj.symm⟩

end CallShape

section GetShape

variable {σ C T : Type} [Inhabited T]

/-- Every call of `Get` is a read with the caller's context and key, or a
write with the caller's context and key and the configured expiration. -/
theorem Get_shape (mc : MultilayerCache σ C T) (ctx : C) (key : String) (s : σ) :
    ∀ c ∈ calls (mc.Get ctx key s).2.2,
      (∃ j, c = Call.get j ctx key) ∨ (∃ j v, c = Call.set j ctx key v mc.expiration) := by
  intro c hc
  have hscan := scanLoop_shape ctx key mc.caches 0 0 (default : T) false s
  cases hq : (scanLoop ctx key 0 mc.caches 0 default false s).1 with
  | returned v ok err =>
    simp only [MultilayerCache.Get, hq] at hc
    exact Or.inl (hscan c hc)
  | finished index result exist =>
    by_cases hcond : index ≠ 0 ∧ exist = true
    · simp only [MultilayerCache.Get, hq, hcond, and_self, if_true, calls_append,
        List.mem_append, ne_eq, not_false_eq_true] at hc
      rcases hc with hc | hc
      · exact Or.inl (hscan c hc)
      · obtain ⟨j, hj⟩ := backfillLoop_shape mc.expiration ctx key result _ 0 _ c hc
        exact Or.inr ⟨j, result, hj⟩
    · simp only [MultilayerCache.Get, hq, hcond, if_false] at hc
      exact Or.inl (hscan c hc)

/-- C12, single expiration policy: for the orchestrator built by
`NewMultilayerCache(expiration, layers...)`, every `set` that a call of `Set`
or a call of `Get` (backfill) issues to any layer carries exactly that
expiration, for every key, value and layer behaviour. -/
theorem single_expiration_policy (expiration : Duration) (layers : List (Cache σ C T))
    (ctx : C) (key : String) (value : T) (s : σ) :
    (∀ (j : Nat) (ctx2 : C) (key2 : String) (v2 : T) (d : Duration),
        Call.set j ctx2 key2 v2 d ∈
          calls ((NewMultilayerCache expiration layers).Set ctx key value s).2.2 →
        d = expiration) ∧
      (∀ (j : Nat) (ctx2 : C) (key2 : String) (v2 : T) (d : Duration),
        Call.set j ctx2 key2 v2 d ∈
          calls ((NewMultilayerCache expiration layers).Get ctx key s).2.2 →
        d = expiration) := by
  constructor
  · intro j ctx2 key2 v2 d hmem
    obtain ⟨n, hn⟩ := setLoop_shape expiration ctx key value layers 0 s _ hmem
    injection hn
  · intro j ctx2 key2 v2 d hmem
    rcases Get_shape (NewMultilayerCache expiration layers) ctx key s _ hmem with ⟨n, hn⟩ | ⟨n, w, hn⟩
    · exact absurd hn (by simp)
    · injection hn

/-- C13, argument pass-through: every call that `Set(ctx, key, value)` issues
is a `set` with the caller's `ctx`, `key` and `value`; every call that
`Get(ctx, key)` issues is a `get` or a `set` with the caller's `ctx` and
`key`; `Close` issues `Close()` only.  So no operation ever issues a
`delete` to any layer. -/
theorem arguments_pass_through (mc : MultilayerCache σ C T) (ctx : C) (key : String)
    (value : T) (s : σ) :
    (∀ c ∈ calls (mc.Set ctx key value s).2.2, ∃ j d, c = Call.set j ctx key value d) ∧
      (∀ c ∈ calls (mc.Get ctx key s).2.2,
        (∃ j, c = Call.get j ctx key) ∨ (∃ j v d, c = Call.set j ctx key v d)) ∧
      (∀ (j : Nat) (ctx2 : C) (keys : List String),
        Call.delete j ctx2 keys ∉ calls (mc.Set ctx key value s).2.2 ∧
        Call.delete j ctx2 keys ∉ calls (mc.Get ctx key s).2.2 ∧
        Call.delete j ctx2 keys ∉ calls (mc.Close s).2) := by
  have hset : ∀ c ∈ calls (mc.Set ctx key value s).2.2,
      ∃ j d, c = Call.set j ctx key value d := by
    intro c hc
    obtain ⟨j, hj⟩ := setLoop_shape mc.expiration ctx key value mc.caches 0 s c hc
    exact ⟨j, mc.expiration, hj⟩
  have hget : ∀ c ∈ calls (mc.Get ctx key s).2.2,
      (∃ j, c = Call.get j ctx key) ∨ (∃ j v d, c = Call.set j ctx key v d) := by
    intro c hc
    rcases Get_shape mc ctx key s c hc with h | ⟨j, v, hj⟩
    · exact Or.inl h
    · exact Or.inr ⟨j, v, mc.expiration, hj⟩
  refine ⟨hset, hget, ?_⟩
  intro j ctx2 keys
  refine ⟨?_, ?_, ?_⟩
  · intro hmem
    obtain ⟨n, d, hn⟩ := hset _ hmem
    exact absurd hn (by simp)
  · intro hmem
    rcases hget _ hmem with ⟨n, hn⟩ | ⟨n, v, d, hn⟩
    · exact absurd hn (by simp)
    · exact absurd hn (by simp)
  · intro hmem
    have h := closeLoop_calls mc.caches 0 s
    simp only [MultilayerCache.Close] at hmem
    rw [h] at hmem
    simp at hmem

/-- C15, the empty layer list: for an orchestrator constructed with no layers,
`Get` returns the zero value of `T`, `false` and no error for every key, `Set`
returns `nil` for every key and value, and `Get`, `Set` and `Close` issue no
call to any layer and leave the world as it is. -/
theorem empty_layer_list (expiration : Duration) (ctx : C) (key : String) (value : T) (s : σ) :
    (NewMultilayerCache expiration ([] : List (Cache σ C T))).Get ctx key s =
        ((default, false, none), s, []) ∧
      (NewMultilayerCache expiration ([] : List (Cache σ C T))).Set ctx key value s =
        (none, s, []) ∧
      (NewMultilayerCache expiration ([] : List (Cache σ C T))).Close s = (s, []) := by
  refine ⟨?_, ?_, ?_⟩
  · simp [MultilayerCache.Get, NewMultilayerCache, scanLoop]
  · simp [MultilayerCache.Set, NewMultilayerCache, setLoop]
  · simp [MultilayerCache.Close, NewMultilayerCache, closeLoop]

end GetShape


/-! ## What a reported hit rests on -/

section ScanInversion

variable {σ C T : Type}

/-- When the scanning loop returns from line 42, some layer behind clean
misses answered with an error, and the loop hands back that layer's value and
flag with the attributed error. -/
theorem scanLoop_returned_inv (ctx : C) (key : String) (v : T) (ok : Bool) (m : String) :
    ∀ (ls : List (Cache σ C T)) (i0 index : Nat) (result : T) (exist : Bool) (s : σ),
      (scanLoop ctx key i0 ls index result exist s).1 = Scan.returned v ok m →
      ∃ (i : Nat) (c : Cache σ C T) (e : String),
        ls[i]? = some c ∧
        (∀ j, j < i → ∃ u, (getReplies ctx key ls s)[j]? = some (u, false, none)) ∧
        (getReplies ctx key ls s)[i]? = some (v, ok, some e) ∧
        m = Errorf c.Name e ∧
        (Call.get (i0 + i) ctx key, Reply.got v ok (some e)) ∈
          (scanLoop ctx key i0 ls index result exist s).2.2 := by
  intro ls
  induction ls with
  | nil => intro i0 index result exist s h; simp [scanLoop] at h
  | cons d rest ih =>
    intro i0 index result exist s h
    cases h1 : (d.Get ctx key s).1.2.2 with
    | some err =>
      simp only [scanLoop, h1, Scan.returned.injEq] at h
      obtain ⟨hv, hok, hm⟩ := h
      refine ⟨0, d, err, by simp, fun j hj => absurd hj (Nat.not_lt_zero j), ?_, hm.symm, ?_⟩
      · have hfull : (d.Get ctx key s).1 = (v, ok, some err) :=
          Prod.ext hv (Prod.ext hok h1)
        simp [getReplies, hfull]
      · simp [scanLoop, h1, hv, hok]
    | none =>
      cases h2 : (d.Get ctx key s).1.2.1 with
      | true => simp [scanLoop, h1, h2] at h
      | false =>
        have h3 : (scanLoop ctx key (i0 + 1) rest index result exist (d.Get ctx key s).2).1 =
            Scan.returned v ok m := by
          simpa [scanLoop, h1, h2] using h
        obtain ⟨i, c, e, hc, hmiss, herr, hm, hmem⟩ :=
          ih (i0 + 1) index result exist (d.Get ctx key s).2 h3
        refine ⟨i + 1, c, e, by simpa using hc, ?_, by simpa [getReplies] using herr, hm, ?_⟩
        · intro j hj
          cases j with
          | zero =>
            have hfull : (d.Get ctx key s).1 = ((d.Get ctx key s).1.1, false, none) :=
              Prod.ext rfl (Prod.ext h2 h1)
            exact ⟨(d.Get ctx key s).1.1, by rw [getReplies, List.getElem?_cons_zero, hfull]⟩
          | succ j =>
            obtain ⟨u, hu⟩ := hmiss j (by omega)
            exact ⟨u, by simpa [getReplies] using hu⟩
        · have e2 : i0 + (i + 1) = i0 + 1 + i := by omega
          rw [e2]
          simp only [scanLoop, h1, h2, Bool.false_eq_true, if_false, List.mem_cons]
          exact Or.inr hmem

/-- When the scanning loop ends without returning, either no layer hit and
the locals are untouched, or the locals describe a clean hit behind clean
misses. -/
theorem scanLoop_finished_inv (ctx : C) (key : String) (idx : Nat) (r : T) (ex : Bool) :
    ∀ (ls : List (Cache σ C T)) (i0 index : Nat) (result : T) (exist : Bool) (s : σ),
      (scanLoop ctx key i0 ls index result exist s).1 = Scan.finished idx r ex →
      (idx = index ∧ r = result ∧ ex = exist) ∨
      ∃ (i : Nat) (c : Cache σ C T),
        idx = i0 + i ∧ ex = true ∧ ls[i]? = some c ∧
        (∀ j, j < i → ∃ u, (getReplies ctx key ls s)[j]? = some (u, false, none)) ∧
        (getReplies ctx key ls s)[i]? = some (r, true, none) ∧
        (Call.get (i0 + i) ctx key, Reply.got r true none) ∈
          (scanLoop ctx key i0 ls index result exist s).2.2 := by
  intro ls
  induction ls with
  | nil =>
    intro i0 index result exist s h
    simp only [scanLoop, Scan.finished.injEq] at h
    exact Or.inl ⟨h.1.symm, h.2.1.symm, h.2.2.symm⟩
  | cons d rest ih =>
    intro i0 index result exist s h
    cases h1 : (d.Get ctx key s).1.2.2 with
    | some err => simp [scanLoop, h1] at h
    | none =>
      cases h2 : (d.Get ctx key s).1.2.1 with
      | true =>
        simp only [scanLoop, h1, h2, if_true, Scan.finished.injEq] at h
        obtain ⟨hi, hr, hex⟩ := h
        have hfull : (d.Get ctx key s).1 = (r, true, none) := Prod.ext hr (Prod.ext h2 h1)
        refine Or.inr ⟨0, d, by omega, hex.symm, by simp,
          fun j hj => absurd hj (Nat.not_lt_zero j), by simp [getReplies, hfull], ?_⟩
        simp [scanLoop, h1, h2, hr]
      | false =>
        have h3 : (scanLoop ctx key (i0 + 1) rest index result exist (d.Get ctx key s).2).1 =
            Scan.finished idx r ex := by
          simpa [scanLoop, h1, h2] using h
        rcases ih (i0 + 1) index result exist (d.Get ctx key s).2 h3 with hkeep | hhit
        · exact Or.inl hkeep
        · obtain ⟨i, c, hi, hex, hc, hmiss, hit, hmem⟩ := hhit
          refine Or.inr ⟨i + 1, c, by omega, hex, by simpa using hc, ?_,
            by simpa [getReplies] using hit, ?_⟩
          · intro j hj
            cases j with
            | zero =>
              have hfull : (d.Get ctx key s).1 = ((d.Get ctx key s).1.1, false, none) :=
                Prod.ext rfl (Prod.ext h2 h1)
              exact ⟨(d.Get ctx key s).1.1, by rw [getReplies, List.getElem?_cons_zero, hfull]⟩
            | succ j =>
              obtain ⟨u, hu⟩ := hmiss j (by omega)
              exact ⟨u, by simpa [getReplies] using hu⟩
          · have e2 : i0 + (i + 1) = i0 + 1 + i := by omega
            rw [e2]
            simp only [scanLoop, h1, h2, Bool.false_eq_true, if_false, List.mem_cons]
            exact Or.inr hmem

end ScanInversion

section FoundSound

variable {σ C T : Type} [Inhabited T]

/-- C14 as amended, soundness of a reported hit: when `Get` returns
`found = true`, some layer `i` behind layers that all answered
`found = false` without error answered, during this call, with
`found = true` and the returned value; the returned error is `nil` exactly
when that layer returned no error, and otherwise it is that layer's error
attributed to it.  So the value of a reported hit is always the one supplied
by the lowest-index layer that reported `found = true`. -/
theorem Get_found_sound (mc : MultilayerCache σ C T) (ctx : C) (key : String) (s : σ)
    (v : T) (err : Option String) (h : (mc.Get ctx key s).1 = (v, true, err)) :
    ∃ (i : Nat) (c : Cache σ C T) (e : Option String),
      mc.caches[i]? = some c ∧
      (∀ j, j < i → ∃ u, (getReplies ctx key mc.caches s)[j]? = some (u, false, none)) ∧
      (getReplies ctx key mc.caches s)[i]? = some (v, true, e) ∧
      (Call.get i ctx key, Reply.got v true e) ∈ (mc.Get ctx key s).2.2 ∧
      err = e.map fun m => "cache:" ++ c.Name ++ "  error: " ++ m := by
  cases hq : (scanLoop ctx key 0 mc.caches 0 default false s).1 with
  | returned w ok m =>
    obtain ⟨i, c, e, hc, hmiss, herr, hm, hmem⟩ :=
      scanLoop_returned_inv ctx key w ok m mc.caches 0 0 default false s hq
    simp only [MultilayerCache.Get, hq, Prod.mk.injEq] at h
    obtain ⟨hw, hok, herr2⟩ := h
    subst hw hok
    refine ⟨i, c, some e, hc, hmiss, herr, ?_, ?_⟩
    · simpa [MultilayerCache.Get, hq] using hmem
    · rw [← herr2, hm]; rfl
  | finished idx r ex =>
    by_cases hcond : idx ≠ 0 ∧ ex = true
    · rcases scanLoop_finished_inv ctx key idx r ex mc.caches 0 0 default false s hq with
        hkeep | ⟨i, c, hi, _, hc, hmiss, hit, hmem⟩
      · exact absurd hkeep.1 hcond.1
      · simp only [MultilayerCache.Get, hq, hcond, and_self, if_true, Prod.mk.injEq, ne_eq,
          not_false_eq_true, true_and] at h
        obtain ⟨hr, herr2⟩ := h
        subst hr
        refine ⟨i, c, none, hc, hmiss, hit, ?_, by rw [← herr2]; rfl⟩
        simp only [MultilayerCache.Get, hq, hcond, and_self, if_true, ne_eq,
          not_false_eq_true, List.mem_append]
        exact Or.inl (by simpa using hmem)
    · simp [MultilayerCache.Get, hq, hcond] at h

end FoundSound

/-- C14 as stated fails: behind a missing first layer, a backend answers
`(7, true, err)` with `err` non-nil, and `Get` returns `found = true`
together with a non-nil error. -/
theorem Get_found_with_error :
    (staleBack.Get () "k" []).1 = (7, true, some "cache:remote  error: stale read") ∧
      ¬ ((staleBack.Get () "k" []).1.2.1 = true → (staleBack.Get () "k" []).1.2.2 = none) := by
  decide

/-- Instance of C14 as amended: `[Memory, Remote]` with `"k"` held by
`Remote` only. -/
theorem Get_found_sound_witness :
    (memoryRemote.Get () "k" [((1, "k"), 7)]).1 = (7, true, none) ∧
      ∃ (i : Nat) (c : Cache Tables Unit Nat) (e : Option String),
        memoryRemote.caches[i]? = some c ∧
        (∀ j, j < i →
          ∃ u, (getReplies () "k" memoryRemote.caches [((1, "k"), 7)])[j]? =
            some (u, false, none)) ∧
        (getReplies () "k" memoryRemote.caches [((1, "k"), 7)])[i]? = some (7, true, e) ∧
        (Call.get i () "k", Reply.got 7 true e) ∈ (memoryRemote.Get () "k" [((1, "k"), 7)]).2.2 ∧
        (none : Option String) = e.map fun m => "cache:" ++ c.Name ++ "  error: " ++ m := by
  have h : (memoryRemote.Get () "k" [((1, "k"), 7)]).1 = (7, true, none) := by decide
  exact ⟨h, Get_found_sound memoryRemote () "k" [((1, "k"), 7)] 7 none h⟩

end cache
